import Mathlib

/-!
Verification development for the PhiFlow Field / Geometry / Extrapolation core.

The Python sources embedded here are:
* `phi/field/_field.py` — the `Field` class (equality, unary/binary arithmetic
  dispatch, staggered/centered predicates, `with_values` / `with_boundary`),
* `phi/geom/_sphere.py` — `Sphere` (volume, signed distance, `rotated`),
* `phi/geom/_cylinder.py` — `Cylinder.approximate_closest_surface`,
* `tests/commit/math/test__extrapolation.py` — behaviour of the extrapolation
  combination algebra (the implementation `phi/math/_extrapolation.py` is not
  part of the sources; the algebra is modelled from the specification, see the
  doc comments below).

The named-dimension tensor substrate (phiml) is external to the repository; it
is modelled by plain shapes (lists of named, kinded dimensions) and rational
data lists, with elementwise operations.
-/

/- ## Shape and tensor substrate (external, consumed) -/

/-- Dimension kinds of the named-dimension tensor substrate. -/
inductive DimKind
  | batch
  | spatial
  | channel
  | inst
  | dual
  deriving DecidableEq, Repr

/-- One named dimension with a size and a kind. -/
structure Dim where
  name : String
  size : Nat
  kind : DimKind
  deriving DecidableEq, Repr

/-- A shape is an ordered list of named dimensions. -/
abbrev PhiShape := List Dim

/-- Substrate `dual(shape)`: the dual-kinded dimensions of a shape. -/
def dualPart (s : PhiShape) : PhiShape :=
  s.filter (fun d => d.kind == DimKind.dual)

/-- Substrate `shape_a in shape_b`: every dimension of `a` occurs in `b`. -/
def shapeIn (a b : PhiShape) : Bool :=
  a.all (fun d => decide (d ∈ b))

/-- A tensor of the external substrate: a shape together with its entries,
modelled as rational numbers. -/
structure Tensor where
  shape : PhiShape
  data : List ℚ
  deriving DecidableEq, Repr

/-- Numeric closeness comparator of the external substrate (`math.always_close`):
entries pairwise equal within tolerance, modelled with absolute tolerance 1e-5. -/
def alwaysClose (a b : Tensor) : Bool :=
  a.data.length == b.data.length &&
    (List.zip a.data b.data).all (fun p =>
      decide (p.1 - p.2 ≤ 1 / 100000) && decide (p.2 - p.1 ≤ 1 / 100000))

/- ## Extrapolation algebra -/

/-- Modelled from the spec: the `Extrapolation` variants of `phi/math/_extrapolation.py`
(the file is not among the sources; only its tests are). Variants per the spec:
constant, periodic, symmetric, reflecting, and the zero-gradient `BOUNDARY`
extrapolation appearing in the tests. The per-boundary mixed and field-embedding
variants are not needed by any claim and are omitted. -/
inductive Extrapolation
  | constant (v : ℚ)
  | periodic
  | symmetric
  | reflect
  | boundary
  deriving DecidableEq, Repr

/-- Constant-zero extrapolation singleton `ZERO`. -/
def ZERO : Extrapolation := .constant 0

/-- Constant-one extrapolation singleton `ONE`. -/
def ONE : Extrapolation := .constant 1

/-- Periodic extrapolation singleton `PERIODIC`. -/
def PERIODIC : Extrapolation := .periodic

/-- Zero-gradient extrapolation singleton `BOUNDARY`. -/
def BOUNDARY : Extrapolation := .boundary

/-- Python exceptions raised by the modelled code. -/
inductive PyError
  | valueError
  | incompatibleExtrapolations
  deriving DecidableEq, Repr

/-- Binary arithmetic operators dispatched by `Field._op2`. -/
inductive BinOp
  | add
  | sub
  | mul
  | div
  deriving DecidableEq, Repr

/-- Apply a binary operator to two rational values (substrate arithmetic;
division is the substrate's total division). -/
def BinOp.applyQ : BinOp → ℚ → ℚ → ℚ
  | .add, a, b => a + b
  | .sub, a, b => a - b
  | .mul, a, b => a * b
  | .div, a, b => a / b

/-- Modelled from the spec: combination of a non-constant extrapolation `e` with
a constant `c` (`constOnLeft` says the constant is the left operand). Spec rules:
a constant zero is absorbed by the non-constant side for `+`/`-`; `*` by zero
returns constant zero and `*` by one returns the non-constant side; division by
the non-zero side is disallowed unless the left operand is the absorbing
element; everything else raises `IncompatibleExtrapolations`. Matches the tests
`test_constant_periodic_working` and `test_cross_errors`. -/
def combineConstSided (op : BinOp) (c : ℚ) (e : Extrapolation) (constOnLeft : Bool) :
    Except PyError Extrapolation :=
  match op with
  | .add => if c = 0 then .ok e else .error .incompatibleExtrapolations
  | .sub => if c = 0 then .ok e else .error .incompatibleExtrapolations
  | .mul =>
      if c = 0 then .ok (.constant 0)
      else if c = 1 then .ok e
      else .error .incompatibleExtrapolations
  | .div =>
      if constOnLeft then
        if c = 0 then .ok (.constant 0) else .error .incompatibleExtrapolations
      else
        if c = 1 then .ok e else .error .incompatibleExtrapolations

/-- Modelled from the spec: the binary arithmetic on `Extrapolation`
(`phi/math/_extrapolation.py` is not among the sources). Two constants combine
by applying the operator to their values; equal non-constant variants combine to
themselves; a constant combines with a non-constant side per `combineConstSided`;
any other mix raises `IncompatibleExtrapolations`. -/
def extrapCombine (op : BinOp) (e1 e2 : Extrapolation) : Except PyError Extrapolation :=
  match e1, e2 with
  | .constant a, .constant b => .ok (.constant (op.applyQ a b))
  | .constant c, e => combineConstSided op c e true
  | e, .constant c => combineConstSided op c e false
  | e, f => if e = f then .ok e else .error .incompatibleExtrapolations

/-- Unary operators dispatched by `Field._op1`. -/
inductive UnOp
  | neg
  | abs
  deriving DecidableEq, Repr

/-- Apply a unary operator to a rational value. -/
def UnOp.applyQ : UnOp → ℚ → ℚ
  | .neg, x => -x
  | .abs, x => |x|

/-- Modelled from the spec: unary arithmetic on `Extrapolation`. A constant is
transformed by the operator; the structural variants (periodic, symmetric,
reflect, zero-gradient) are invariant under pointwise unary operators. -/
def extrapUnApply (op : UnOp) : Extrapolation → Extrapolation
  | .constant v => .constant (op.applyQ v)
  | e => e

/- ## Field layer (phi/field/_field.py) -/

/-- Concrete Geometry classes distinguished by `type(self._geometry)` in
`Field.__eq__`. -/
inductive GeomType
  | sphere
  | cylinder
  | box
  | point
  | grid
  | mesh
  deriving DecidableEq, Repr

/-- The polymorphic Geometry capability interface as consumed by the Field
layer: the concrete class, the spatial rank and the face shape (used by the
staggered test). The geometries among the sources (Sphere, Cylinder) have empty
`boundary_elements` / `boundary_faces` dictionaries, so those are not carried.
Geometry values compare by value (`__eq__`). -/
structure Geometry where
  gtype : GeomType
  spatialRank : Nat
  faceShape : PhiShape
  deriving DecidableEq, Repr

/-- A Field: the triple of a Geometry, a values tensor and a boundary
Extrapolation (`Field.__init__` stores `_geometry`, `_values`, `_boundary`;
constructed fields always carry a values tensor, since `__init__` wraps or
samples the `values` argument). -/
structure PhiField where
  geometry : Geometry
  values : Tensor
  boundary : Extrapolation
  deriving DecidableEq, Repr

/-- Module-level `is_staggered(values, geometry)` of `phi/field/_field.py`:
`bool(dual(values)) and geometry.face_shape.dual in dual(values)`. -/
def is_staggered (values : Tensor) (geometry : Geometry) : Bool :=
  !(dualPart values.shape).isEmpty && shapeIn (dualPart geometry.faceShape) (dualPart values.shape)

/-- Alias used to define the Field property without shadowing the module-level
function of the same name. -/
def isStaggeredValues : Tensor → Geometry → Bool := is_staggered

/-- Property `Field.is_staggered`: `is_staggered(self._values, self._geometry)`. -/
def PhiField.is_staggered (f : PhiField) : Bool :=
  isStaggeredValues f.values f.geometry

/-- Property `Field.is_centered`: `not self.is_staggered`. -/
def PhiField.is_centered (f : PhiField) : Bool :=
  !f.is_staggered

/-- Spec-side predicate, written from the spec's words for the staggered
invariant: the stored values carry a dual dimension matching the Geometry's
dual face shape. -/
def carriesDualFaceDim (values : Tensor) (geometry : Geometry) : Prop :=
  dualPart values.shape ≠ [] ∧ ∀ d ∈ dualPart geometry.faceShape, d ∈ dualPart values.shape

/-- Field.__eq__ of `phi/field/_field.py` (lines 557-571). The `isinstance`
guard and the dead `_values is None` branches (constructed fields always carry
values) are omitted; the remaining checks are literal. Line 569 of the source
compares `self._values.shape == other._values.shape` and returns `False` on
equality. -/
def fieldEq (self other : PhiField) : Bool :=
  if self.geometry.gtype ≠ other.geometry.gtype then false
  else if self.boundary ≠ other.boundary then false
  else if self.values.shape = other.values.shape then false
  else alwaysClose self.values other.values

/-- Elementwise binary tensor operation of the external substrate, with scalar
broadcasting: a shapeless operand is broadcast over the other side, otherwise
the entries combine pairwise. -/
def Tensor.binop (op : BinOp) (a b : Tensor) : Tensor :=
  if b.shape = [] then ⟨a.shape, a.data.map (fun x => op.applyQ x (b.data.getD 0 0))⟩
  else if a.shape = [] then ⟨b.shape, b.data.map (fun y => op.applyQ (a.data.getD 0 0) y)⟩
  else ⟨a.shape, List.zipWith op.applyQ a.data b.data⟩

/-- Elementwise unary tensor operation of the external substrate. -/
def Tensor.unop (op : UnOp) (t : Tensor) : Tensor :=
  ⟨t.shape, t.data.map op.applyQ⟩

/-- Substrate `wrap` of a bare scalar: a shapeless one-entry tensor. -/
def wrapScalar (v : ℚ) : Tensor := ⟨[], [v]⟩

/-- Substrate `wrap(other, geometry.shape[vector])` of a tuple/list matching the
spatial rank: a tensor with a channel `vector` dimension. -/
def wrapVector (vs : List ℚ) : Tensor := ⟨[⟨"vector", vs.length, DimKind.channel⟩], vs⟩

/-- Modelled from the spec: the resampling engine
(`phi/field/_resample.py` is not among the sources) interpolates a source Field
onto a target Geometry. The claims proved here never depend on the sampled
entries, only on the structure of `_op2`, so the source values are carried over
unchanged. -/
def sampleOnto (source : PhiField) (_target : Geometry) : Tensor :=
  source.values

/-- The right-hand operands accepted by `Field._op2`. -/
inductive Operand
  | fieldOperand (f : PhiField)
  | geomOperand (g : Geometry)
  | scalarOperand (v : ℚ)
  | tupleOperand (vs : List ℚ)
  | tensorOperand (t : Tensor)
  deriving Repr

/-- Field._op2 of `phi/field/_field.py` (lines 630-655). A Geometry operand
raises `ValueError`; a Field operand with identical geometry combines values
pointwise and combines the extrapolations with the same operator; a Field
operand with differing geometry is first resampled onto `self`'s geometry, the
boundary combining identically; a bare scalar / tuple / tensor operand is
wrapped (a tuple of length `spatial_rank` receives a channel `vector`
dimension) and combined with the values, the boundary staying `self._boundary`
(constants do not affect the boundary conditions, legacy reasons). The
vector-to-dual renaming of the wrapped operand for staggered fields only
affects the operand's values and is not modelled. -/
def op2 (op : BinOp) (self : PhiField) (other : Operand) : Except PyError PhiField :=
  match other with
  | .geomOperand _ => .error .valueError
  | .fieldOperand o =>
      if self.geometry = o.geometry then
        match extrapCombine op self.boundary o.boundary with
        | .ok e => .ok ⟨self.geometry, self.values.binop op o.values, e⟩
        | .error err => .error err
      else
        let otherValues := sampleOnto o self.geometry
        match extrapCombine op self.boundary o.boundary with
        | .ok e => .ok ⟨self.geometry, self.values.binop op otherValues, e⟩
        | .error err => .error err
  | .scalarOperand v =>
      .ok ⟨self.geometry, self.values.binop op (wrapScalar v), self.boundary⟩
  | .tupleOperand vs =>
      let o := if vs.length = self.geometry.spatialRank then wrapVector vs else ⟨[], vs⟩
      .ok ⟨self.geometry, self.values.binop op o, self.boundary⟩
  | .tensorOperand t =>
      .ok ⟨self.geometry, self.values.binop op t, self.boundary⟩

/-- Field.with_values for a tensor argument: replaces only the values. -/
def PhiField.with_values (f : PhiField) (v : Tensor) : PhiField :=
  ⟨f.geometry, v, f.boundary⟩

/-- Field.with_boundary: the geometries modelled here (Sphere, Cylinder,
point-like) have empty `boundary_elements` / `boundary_faces`, so the old and
new determined slices are both empty and the source takes its fast path,
replacing only the boundary. -/
def PhiField.with_boundary (f : PhiField) (e : Extrapolation) : PhiField :=
  ⟨f.geometry, f.values, e⟩

/-- Field._op1 of `phi/field/_field.py` (lines 616-628): applies the operator
to the values and to the extrapolation and rebuilds the field through
`with_values` / `with_extrapolation`. -/
def op1 (op : UnOp) (f : PhiField) : PhiField :=
  (f.with_values (f.values.unop op)).with_boundary (extrapUnApply op f.boundary)

/- ## Concrete sample inputs used by closed theorems -/

/-- A sphere-typed geometry of rank 1 as seen by the Field layer. -/
def sampleGeometry : Geometry := ⟨GeomType.sphere, 1, []⟩

/-- A three-cell spatial values tensor. -/
def sampleTensor : Tensor := ⟨[⟨"x", 3, DimKind.spatial⟩], [1, 2, 3]⟩

/-- A concrete Field over `sampleGeometry` with boundary `ZERO`. -/
def sampleField : PhiField := ⟨sampleGeometry, sampleTensor, ZERO⟩

/-- The same Field with boundary `ONE`, used for extrapolation combination. -/
def sampleFieldOne : PhiField := ⟨sampleGeometry, sampleTensor, ONE⟩

/- ## Geometry over the reals (phi/geom/_sphere.py, phi/geom/_cylinder.py) -/

/-- Substrate `math.vec_squared` / `math.sum(v ** 2, vector)`: the squared
Euclidean norm of a vector. -/
def vecSquared {n : ℕ} (v : Fin n → ℝ) : ℝ :=
  ∑ i, (v i) ^ 2

/-- An n-dimensional sphere of `phi/geom/_sphere.py`: center position and
radius. A single sphere is modelled (no instance dimensions). -/
structure Sphere (n : ℕ) where
  center : Fin n → ℝ
  radius : ℝ

/-- Sphere.volume: `4 / 3 * math.PI * self._radius ** 3`, independent of the
spatial rank `n`. -/
noncomputable def Sphere.volume {n : ℕ} (s : Sphere n) : ℝ :=
  4 / 3 * Real.pi * s.radius ^ 3

/-- Sphere.rotated: `return self`. -/
def Sphere.rotated {n : ℕ} (s : Sphere n) (_angle : ℝ) : Sphere n :=
  s

/-- Sphere.shifted: returns a sphere with translated center. -/
def Sphere.shifted {n : ℕ} (s : Sphere n) (delta : Fin n → ℝ) : Sphere n :=
  ⟨fun i => s.center i + delta i, s.radius⟩

/-- Sphere.approximate_signed_distance (`phi/geom/_sphere.py` lines 44-59):
the squared distance from the location to the center is clamped below by
`self.radius * 1e-2` before the square root ("Prevent infinite
spatial_gradient at sphere center"), then the radius is subtracted. The final
`math.min` over instance dimensions is the identity for a single sphere. -/
noncomputable def Sphere.approximate_signed_distance {n : ℕ} (s : Sphere n)
    (location : Fin n → ℝ) : ℝ :=
  let distance_squared := vecSquared (fun i => location i - s.center i)
  let clamped := max distance_squared (s.radius * (1 / 100))
  Real.sqrt clamped - s.radius

/-- Epsilon-guarded vector normalization of the external substrate
(`normalize(v, epsilon)`): division by the length, guarded below by epsilon. -/
noncomputable def normalizeEps {m : ℕ} (v : Fin m → ℝ) (eps : ℝ) : Fin m → ℝ :=
  fun i => v i / max (Real.sqrt (vecSquared v)) eps

/-- Points of the cylinder's local frame, split into the radial components and
the axial component: the pair `(r, h)`. -/
abbrev LocalPoint (m : ℕ) := (Fin m → ℝ) × ℝ

/-- Substrate `length(p - q)` between two local-frame points. -/
noncomputable def pairDist {m : ℕ} (p q : LocalPoint m) : ℝ :=
  Real.sqrt (vecSquared (fun i => p.1 i - q.1 i) + (p.2 - q.2) ^ 2)

/-- The cap (flat) candidate surface point `on_flat` of
`Cylinder.approximate_closest_surface`: the radial part clamped into the disk
(`clamped_r`), the axial part the top or bottom cap height by the sign of `h`. -/
noncomputable def capPoint (radius depth : ℝ) {m : ℕ} (r : Fin m → ℝ) (h : ℝ) :
    LocalPoint m :=
  let surf_r := fun i => normalizeEps r (1 / 100000) i * radius
  let clamped_r := if vecSquared r ≤ radius ^ 2 then r else surf_r
  (clamped_r, if 0 ≤ h then depth / 2 else -(depth / 2))

/-- The lateral-surface candidate point `on_cyl` of
`Cylinder.approximate_closest_surface`: the radial part projected onto the
lateral surface (`surf_r`), the axial part clipped between the caps. -/
noncomputable def lateralPoint (radius depth : ℝ) {m : ℕ} (r : Fin m → ℝ) (h : ℝ) :
    LocalPoint m :=
  let surf_r := fun i => normalizeEps r (1 / 100000) i * radius
  (surf_r, min (max h (-(depth / 2))) (depth / 2))

/-- Result triple of `Cylinder.approximate_closest_surface`: signed distance,
delta vector to the surface and surface normal (the two trailing `None`
entries of the source's 5-tuple are dropped). Delta and normal are local-frame
points. -/
abbrev CylOut (m : ℕ) := ℝ × LocalPoint m × LocalPoint m

/-- Cylinder.approximate_closest_surface (`phi/geom/_cylinder.py` lines 78-109)
for a single cylinder, in the cylinder's local frame: the query has already
been rotated into the frame where the alignment axis is the `h` component (for
an unrotated cylinder, `rotate_vector` is the identity), so `r` holds the
radial components and `h` the axial one. `capPoint` and `lateralPoint` name
the source's inline `on_flat` and `on_cyl`; the choice between them compares
their Euclidean distances `d_flat <= d_cyl` to the query, the signed distance
is the smaller Euclidean distance negated inside the cylinder, and the normal
is the cap normal `(0, ±1)` or the lateral normal `(radial_outward, 0)`
matching the chosen candidate. -/
noncomputable def cylClosestLocal (radius depth : ℝ) {m : ℕ} (r : Fin m → ℝ) (h : ℝ) :
    CylOut m :=
  let top_h := depth / 2
  let bot_h := -(depth / 2)
  let radial_outward := normalizeEps r (1 / 100000)
  let on_flat := capPoint radius depth r h
  let normal_flat : LocalPoint m := (fun _ => 0, if 0 ≤ h then 1 else -1)
  let on_cyl := lateralPoint radius depth r h
  let normal_cyl : LocalPoint m := (radial_outward, 0)
  let d_flat := pairDist on_flat (r, h)
  let d_cyl := pairDist on_cyl (r, h)
  let flat_closer := d_flat ≤ d_cyl
  let surf_point := if flat_closer then on_flat else on_cyl
  let inside := vecSquared r ≤ radius ^ 2 ∧ bot_h ≤ h ∧ h ≤ top_h
  let sgn_dist := min d_flat d_cyl * (if inside then -1 else 1)
  let delta : LocalPoint m := (fun i => surf_point.1 i - r i, surf_point.2 - h)
  let normal := if flat_closer then normal_flat else normal_cyl
  (sgn_dist, delta, normal)

/-- Modelled from the spec: `math.at_min(values, key, dim)` of the external
substrate selects the values at the position of the minimal key along the
instance dimension, breaking ties deterministically at the first minimum. The
index of the first minimal element of a list of keys. -/
noncomputable def firstArgmin : List ℝ → ℕ
  | [] => 0
  | [_] => 0
  | x :: y :: t =>
      let j := firstArgmin (y :: t)
      if x ≤ (y :: t).getD j 0 then 0 else j + 1

/-- Junk value returned by `List.getD` outside bounds. -/
def cylOutDefault (m : ℕ) : CylOut m := (0, ((fun _ => 0), 0), ((fun _ => 0), 0))

/-- Cylinder.approximate_closest_surface for a geometry with an instance
dimension, modelled as a list of `(radius, depth)` cylinders sharing one local
frame: every instance is evaluated and `at_min` keyed on the signed distance
selects the result of the globally closest instance (first minimum on ties). -/
noncomputable def cylClosestMulti {m : ℕ} (cyls : List (ℝ × ℝ)) (r : Fin m → ℝ) (h : ℝ) :
    CylOut m :=
  let results := cyls.map (fun c => cylClosestLocal c.1 c.2 r h)
  let keys := results.map (fun o => o.1)
  results.getD (firstArgmin keys) (cylOutDefault m)

/- ## Helper lemmas -/

/-- The squared norm is nonnegative. -/
theorem vecSquared_nonneg {n : ℕ} (v : Fin n → ℝ) : 0 ≤ vecSquared v := by
  unfold vecSquared
  positivity

/-- The squared norm of the zero vector vanishes. -/
theorem vecSquared_zero {n : ℕ} : vecSquared (fun _ : Fin n => (0:ℝ)) = 0 := by
  simp [vecSquared]

/-- Adding the query point back onto a delta vector recovers the target point. -/
theorem addBack {m : ℕ} (r : Fin m → ℝ) (h : ℝ) (sp : LocalPoint m) :
    (((fun i => r i + (sp.1 i - r i)) : Fin m → ℝ), h + (sp.2 - h)) = sp := by
  cases sp with
  | mk a b =>
    refine Prod.ext ?_ ?_
    · funext i; simp
    · simp

/-- List.getD through List.map at an in-bounds index. -/
theorem getD_map_lt {α β : Type} (f : α → β) (l : List α) (i : ℕ) (hi : i < l.length)
    (d : α) (d2 : β) : (l.map f).getD i d2 = f (l.getD i d) := by
  simp [List.getD, List.getElem?_map, List.getElem?_eq_getElem, hi]

/-- The first arg-min index is in bounds for a nonempty list. -/
theorem firstArgmin_lt_length : ∀ (l : List ℝ), l ≠ [] → firstArgmin l < l.length := by
  intro l
  induction l with
  | nil => intro hc; exact absurd rfl hc
  | cons x xs ih =>
    intro _
    cases xs with
    | nil => simp [firstArgmin]
    | cons y t =>
      simp only [firstArgmin]
      split
      · simp
      · have hlt := ih (by simp)
        simpa using Nat.succ_lt_succ hlt

/-- The element at the first arg-min index is a minimum of the list. -/
theorem firstArgmin_le : ∀ (l : List ℝ) (i : ℕ), i < l.length →
    l.getD (firstArgmin l) 0 ≤ l.getD i 0 := by
  intro l
  induction l with
  | nil => intro i hi; simp at hi
  | cons x xs ih =>
    intro i hi
    cases xs with
    | nil =>
      have hi0 : i = 0 := by simpa using Nat.lt_one_iff.mp (by simpa using hi)
      subst hi0
      simp [firstArgmin]
    | cons y t =>
      simp only [firstArgmin]
      split
      case isTrue hle =>
        cases i with
        | zero => simp
        | succ i2 =>
          have hmin := ih i2 (by simpa using Nat.lt_of_succ_lt_succ hi)
          simp only [List.getD_cons_zero, List.getD_cons_succ]
          exact le_trans hle hmin
      case isFalse hgt =>
        cases i with
        | zero =>
          simp only [List.getD_cons_zero, List.getD_cons_succ]
          exact le_of_lt (lt_of_not_le hgt)
        | succ i2 =>
          simp only [List.getD_cons_succ]
          exact ih i2 (by simpa using Nat.lt_of_succ_lt_succ hi)

/-- Every index strictly before the first arg-min holds a strictly larger
element: ties break at the first minimum. -/
theorem firstArgmin_first : ∀ (l : List ℝ) (j : ℕ), j < firstArgmin l →
    l.getD (firstArgmin l) 0 < l.getD j 0 := by
  intro l
  induction l with
  | nil => intro j hj; simp [firstArgmin] at hj
  | cons x xs ih =>
    intro j hj
    cases xs with
    | nil => simp [firstArgmin] at hj
    | cons y t =>
      simp only [firstArgmin] at hj ⊢
      split at hj
      case isTrue hle => exact absurd hj (by simp)
      case isFalse hgt =>
        rw [if_neg hgt]
        cases j with
        | zero =>
          simp only [List.getD_cons_zero, List.getD_cons_succ]
          exact lt_of_not_le hgt
        | succ j2 =>
          simp only [List.getD_cons_succ]
          exact ih j2 (Nat.lt_of_succ_lt_succ hj)

/- ## Claim theorems -/

/-- C1: the spec states that two Fields are equal iff the concrete Geometry
types match, the Extrapolations are equal and the value tensors are numerically
close. The source (line 569) instead returns `False` whenever the two value
shapes are EQUAL, so a field is not even equal to itself: `fieldEq f f` is
`false` for the concrete `sampleField` although its geometry type and boundary
trivially match and its values are always-close to themselves. -/
theorem claim_C1_field_eq_reflexivity_bug :
    fieldEq sampleField sampleField = false ∧
    alwaysClose sampleField.values sampleField.values = true := by
  refine ⟨rfl, ?_⟩
  norm_num [alwaysClose, sampleField, sampleTensor, List.zip, List.zipWith, List.all]

/-- C5: adding the constant-zero extrapolation to periodic yields periodic,
while adding the constant-one extrapolation to periodic raises
`IncompatibleExtrapolations` (extrapolation algebra modelled from the spec). -/
theorem claim_C5_periodic_plus_constants :
    extrapCombine BinOp.add PERIODIC ZERO = Except.ok PERIODIC ∧
    extrapCombine BinOp.add PERIODIC ONE = Except.error PyError.incompatibleExtrapolations := by
  constructor <;> rfl

/-- C8: a unary operator applied to a Field transforms the values and the
extrapolation by the same operator; in particular negating a field with a
constant boundary negates that constant. -/
theorem claim_C8_op1_transforms_values_and_boundary :
    ∀ (op : UnOp) (f : PhiField),
      (op1 op f).values = f.values.unop op ∧
      (op1 op f).boundary = extrapUnApply op f.boundary ∧
      (∀ c : ℚ, (op1 UnOp.neg (PhiField.mk f.geometry f.values (Extrapolation.constant c))).boundary
          = Extrapolation.constant (-c)) :=
  fun _ _ => ⟨rfl, rfl, fun _ => rfl⟩

/-- C9: Sphere.volume returns `4 / 3 * pi * radius ^ 3` for every spatial
rank; in particular a two-dimensional sphere of radius 2 does not get the disk
area `pi * radius ^ 2`. -/
theorem claim_C9_volume_is_ball_formula :
    ∀ (n : ℕ) (s : Sphere n),
      s.volume = 4 / 3 * Real.pi * s.radius ^ 3 ∧
      (s.radius = 2 → s.volume ≠ Real.pi * s.radius ^ 2) := by
  intro n s
  refine ⟨rfl, fun h2 => ?_⟩
  rw [Sphere.volume, h2]
  intro heq
  have hpi := Real.pi_pos
  nlinarith [heq]

/-- Witness for C9 at the concrete two-dimensional sphere of radius 2. -/
theorem claim_C9_volume_is_ball_formula_witness :
    (Sphere.mk (fun _ : Fin 2 => (0:ℝ)) 2).volume = 4 / 3 * Real.pi * (2:ℝ) ^ 3 ∧
    (Sphere.mk (fun _ : Fin 2 => (0:ℝ)) 2).volume ≠ Real.pi * (2:ℝ) ^ 2 :=
  ⟨(claim_C9_volume_is_ball_formula 2 ⟨fun _ => 0, 2⟩).1,
   (claim_C9_volume_is_ball_formula 2 ⟨fun _ => 0, 2⟩).2 rfl⟩

/-- C10: Sphere.rotated returns the sphere itself unchanged for every angle;
center and radius are unmodified. -/
theorem claim_C10_rotated_is_identity :
    ∀ (n : ℕ) (s : Sphere n) (angle : ℝ),
      s.rotated angle = s ∧
      (s.rotated angle).center = s.center ∧
      (s.rotated angle).radius = s.radius :=
  fun _ _ _ => ⟨rfl, rfl, rfl⟩

/-- C2: for two Fields on identical Geometry, a binary arithmetic operator
produces a Field whose extrapolation is the two operands' extrapolations
combined with the same operator (an incompatible combination propagating as
the same error). -/
theorem claim_C2_op2_combines_extrapolations :
    ∀ (op : BinOp) (f1 f2 : PhiField), f1.geometry = f2.geometry →
      (op2 op f1 (Operand.fieldOperand f2)).map PhiField.boundary
        = extrapCombine op f1.boundary f2.boundary := by
  intro op f1 f2 hg
  simp only [op2]
  rw [if_pos hg]
  cases hE : extrapCombine op f1.boundary f2.boundary with
  | ok e => simp [hE, Except.map]
  | error err => simp [hE, Except.map]

/-- Witness for C2 at two concrete Fields sharing `sampleGeometry`. -/
theorem claim_C2_op2_combines_extrapolations_witness :
    sampleField.geometry = sampleFieldOne.geometry ∧
    (op2 BinOp.add sampleField (Operand.fieldOperand sampleFieldOne)).map PhiField.boundary
      = extrapCombine BinOp.add sampleField.boundary sampleFieldOne.boundary :=
  ⟨rfl, claim_C2_op2_combines_extrapolations BinOp.add sampleField sampleFieldOne rfl⟩

/-- C3: a binary arithmetic operation between a Field and a bare scalar,
tuple/list or raw tensor always succeeds with the Field's extrapolation
unchanged — asymmetric with the Field-Field case, where the extrapolations
combine (last conjunct). -/
theorem claim_C3_scalar_leaves_boundary_unchanged :
    (∀ (op : BinOp) (f : PhiField) (v : ℚ),
        (op2 op f (Operand.scalarOperand v)).map PhiField.boundary = Except.ok f.boundary) ∧
    (∀ (op : BinOp) (f : PhiField) (vs : List ℚ),
        (op2 op f (Operand.tupleOperand vs)).map PhiField.boundary = Except.ok f.boundary) ∧
    (∀ (op : BinOp) (f : PhiField) (t : Tensor),
        (op2 op f (Operand.tensorOperand t)).map PhiField.boundary = Except.ok f.boundary) ∧
    (∃ (op : BinOp) (f1 f2 : PhiField), f1.geometry = f2.geometry ∧
        (op2 op f1 (Operand.fieldOperand f2)).map PhiField.boundary ≠ Except.ok f1.boundary) := by
  refine ⟨?_, ?_, ?_, ?_⟩
  · intro op f v; simp [op2, Except.map]
  · intro op f vs; simp [op2, Except.map]
  · intro op f t; simp [op2, Except.map]
  · refine ⟨BinOp.add, sampleFieldOne, sampleFieldOne, rfl, ?_⟩
    have hres := claim_C2_op2_combines_extrapolations BinOp.add sampleFieldOne sampleFieldOne rfl
    rw [hres]
    simp [sampleFieldOne, ONE, extrapCombine, BinOp.applyQ]

/-- C4: a Field is staggered iff its stored values carry a dual dimension
matching the Geometry's dual face shape, and `is_centered` is always the
negation of `is_staggered`; both are derived from the values and the geometry
(the Field stores only the geometry/values/boundary triple). -/
theorem claim_C4_staggered_centered_invariant :
    ∀ f : PhiField,
      (f.is_staggered = true ↔ carriesDualFaceDim f.values f.geometry) ∧
      f.is_centered = !f.is_staggered := by
  intro f
  refine ⟨?_, rfl⟩
  simp only [PhiField.is_staggered, isStaggeredValues, is_staggered, carriesDualFaceDim, shapeIn,
    Bool.and_eq_true, Bool.not_eq_true', List.all_eq_true, decide_eq_true_eq]
  constructor
  · rintro ⟨h1, h2⟩
    exact ⟨by simpa [List.isEmpty_iff] using h1, h2⟩
  · rintro ⟨h1, h2⟩
    exact ⟨by simpa [List.isEmpty_iff] using h1, h2⟩

/-- C6 counterexample: for the unit sphere at the origin, the point of the real
line at distance 1/20 < 1 from the center does NOT get the claimed signed
distance d - r = 1/20 - 1: the clamp `radius * 1e-2` lifts the squared
distance 1/400 to 1/100, so the result is 1/10 - 1. -/
theorem claim_C6_counterexample :
    Real.sqrt (vecSquared (fun _ : Fin 1 => (1/20 : ℝ))) = 1/20 ∧
    (1/20 : ℝ) < 1 ∧
    (Sphere.mk (fun _ : Fin 1 => (0:ℝ)) 1).approximate_signed_distance (fun _ => 1/20)
        = 1/10 - 1 ∧
    (1/10 - 1 : ℝ) ≠ 1/20 - 1 := by
  have hv : vecSquared (fun _ : Fin 1 => (1/20 : ℝ)) = 1/400 := by
    simp [vecSquared]
    norm_num
  refine ⟨?_, by norm_num, ?_, by norm_num⟩
  · rw [hv, show (1/400 : ℝ) = (1/20)^2 by norm_num, Real.sqrt_sq (by norm_num)]
  · simp only [Sphere.approximate_signed_distance]
    have h1 : (fun i : Fin 1 => (fun _ : Fin 1 => (1/20:ℝ)) i - (fun _ : Fin 1 => (0:ℝ)) i)
        = (fun _ : Fin 1 => (1/20 : ℝ)) := by
      funext i; simp
    rw [h1, hv]
    have h2 : max (1/400 : ℝ) ((1:ℝ) * (1/100)) = 1/100 := by
      rw [max_eq_right] <;> norm_num
    rw [h2, show (1/100 : ℝ) = (1/10)^2 by norm_num, Real.sqrt_sq (by norm_num)]

/-- C6 (amended): for a sphere of radius r centered at the origin,
`approximate_signed_distance` at a point whose squared distance is at least the
clamp threshold `r * 1e-2` returns `sqrt(d^2) - r` (negative whenever the point
lies strictly inside a sphere of positive radius), while every point whose
squared distance is at most the threshold — the exact center included —
receives the clamped value `sqrt(r * 1e-2) - r`, finite and negative whenever
`r > 1e-2`, instead of an unclamped near-zero-distance square root. -/
theorem claim_C6_sdf_clamped (n : ℕ) (r : ℝ) (loc : Fin n → ℝ) :
    (r * (1 / 100) ≤ vecSquared loc →
      (Sphere.mk (fun _ : Fin n => 0) r).approximate_signed_distance loc
        = Real.sqrt (vecSquared loc) - r)
  ∧ (r * (1 / 100) ≤ vecSquared loc → vecSquared loc < r ^ 2 → 0 < r →
      (Sphere.mk (fun _ : Fin n => 0) r).approximate_signed_distance loc < 0)
  ∧ (vecSquared loc ≤ r * (1 / 100) →
      (Sphere.mk (fun _ : Fin n => 0) r).approximate_signed_distance loc
        = Real.sqrt (r * (1 / 100)) - r)
  ∧ (0 ≤ r →
      (Sphere.mk (fun _ : Fin n => 0) r).approximate_signed_distance (fun _ => 0)
        = Real.sqrt (r * (1 / 100)) - r)
  ∧ (1 / 100 < r → vecSquared loc ≤ r * (1 / 100) →
      (Sphere.mk (fun _ : Fin n => 0) r).approximate_signed_distance loc < 0) := by
  have hsub : (fun i : Fin n => loc i - (fun _ : Fin n => (0:ℝ)) i) = loc := by
    funext i; simp
  have hzero : (fun i : Fin n => (fun _ : Fin n => (0:ℝ)) i - (fun _ : Fin n => (0:ℝ)) i)
      = (fun _ : Fin n => (0:ℝ)) := by
    funext i; simp
  have hmain : ∀ _ : r * (1 / 100) ≤ vecSquared loc,
      (Sphere.mk (fun _ : Fin n => 0) r).approximate_signed_distance loc
        = Real.sqrt (vecSquared loc) - r := by
    intro hfar
    simp only [Sphere.approximate_signed_distance]
    rw [hsub, max_eq_left hfar]
  have hnearEq : ∀ _ : vecSquared loc ≤ r * (1 / 100),
      (Sphere.mk (fun _ : Fin n => 0) r).approximate_signed_distance loc
        = Real.sqrt (r * (1 / 100)) - r := by
    intro hnear
    simp only [Sphere.approximate_signed_distance]
    rw [hsub, max_eq_right hnear]
  refine ⟨hmain, ?_, hnearEq, ?_, ?_⟩
  · intro hfar hin hr0
    rw [hmain hfar, sub_neg]
    calc Real.sqrt (vecSquared loc) < Real.sqrt (r ^ 2) :=
          Real.sqrt_lt_sqrt (vecSquared_nonneg loc) hin
      _ = r := Real.sqrt_sq hr0.le
  · intro hr0
    simp only [Sphere.approximate_signed_distance]
    rw [hzero, vecSquared_zero, max_eq_right (mul_nonneg hr0 (by norm_num))]
  · intro hr hnear
    have hr0 : (0:ℝ) < r := lt_trans (by norm_num) hr
    rw [hnearEq hnear, sub_neg]
    have hlt : r * (1 / 100) < r ^ 2 := by nlinarith
    calc Real.sqrt (r * (1 / 100)) < Real.sqrt (r ^ 2) :=
          Real.sqrt_lt_sqrt (by positivity) hlt
      _ = r := Real.sqrt_sq hr0.le

/-- Witness for C6 on the real line: the unit sphere and the point at distance
1/10, whose squared distance 1/100 sits exactly at the clamp threshold, so
every hypothesis of the amended theorem is dischargeable at this one input. -/
theorem claim_C6_sdf_clamped_witness :
    ((Sphere.mk (fun _ : Fin 1 => 0) 1).approximate_signed_distance (fun _ => 1/10)
        = Real.sqrt (vecSquared (fun _ : Fin 1 => (1/10 : ℝ))) - 1)
  ∧ ((Sphere.mk (fun _ : Fin 1 => 0) 1).approximate_signed_distance (fun _ => 1/10) < 0)
  ∧ ((Sphere.mk (fun _ : Fin 1 => 0) 1).approximate_signed_distance (fun _ => 1/10)
        = Real.sqrt ((1:ℝ) * (1 / 100)) - 1)
  ∧ ((Sphere.mk (fun _ : Fin 1 => (0:ℝ)) 1).approximate_signed_distance (fun _ => 0)
        = Real.sqrt ((1:ℝ) * (1 / 100)) - 1)
  ∧ ((Sphere.mk (fun _ : Fin 1 => 0) 1).approximate_signed_distance (fun _ => 1/10) < 0) := by
  have hv : vecSquared (fun _ : Fin 1 => (1/10 : ℝ)) = 1/100 := by
    simp [vecSquared]
    norm_num
  have H := claim_C6_sdf_clamped 1 1 (fun _ => 1/10)
  exact ⟨H.1 (by rw [hv]; norm_num),
    H.2.1 (by rw [hv]; norm_num) (by rw [hv]; norm_num) (by norm_num),
    H.2.2.1 (by rw [hv]; norm_num),
    H.2.2.2.1 (by norm_num),
    H.2.2.2.2 (by norm_num) (by rw [hv]; norm_num)⟩

/-- C7: Cylinder.approximate_closest_surface selects between the cap candidate
and the lateral-surface candidate by comparing their Euclidean distances to
the query (choosing the cap on ties), so the returned surface point attains the
minimum of the two Euclidean distances; for multiple instances the result is
the per-instance result at the arg-min of the signed-distance keys, that index
holds a minimal key, and every earlier index holds a strictly larger key
(first minimum). -/
theorem claim_C7_closest_surface_selection (radius depth : ℝ) {m : ℕ}
    (r : Fin m → ℝ) (h : ℝ) (cyls : List (ℝ × ℝ)) (hne : cyls ≠ []) :
    ((((fun i => r i + (cylClosestLocal radius depth r h).2.1.1 i) : Fin m → ℝ),
        h + (cylClosestLocal radius depth r h).2.1.2)
      = if pairDist (capPoint radius depth r h) (r, h)
            ≤ pairDist (lateralPoint radius depth r h) (r, h)
        then capPoint radius depth r h else lateralPoint radius depth r h)
  ∧ pairDist (((fun i => r i + (cylClosestLocal radius depth r h).2.1.1 i) : Fin m → ℝ),
        h + (cylClosestLocal radius depth r h).2.1.2) (r, h)
      = min (pairDist (capPoint radius depth r h) (r, h))
            (pairDist (lateralPoint radius depth r h) (r, h))
  ∧ cylClosestMulti cyls r h
      = cylClosestLocal
          (cyls.getD (firstArgmin (cyls.map (fun c => (cylClosestLocal c.1 c.2 r h).1))) (0, 0)).1
          (cyls.getD (firstArgmin (cyls.map (fun c => (cylClosestLocal c.1 c.2 r h).1))) (0, 0)).2
          r h
  ∧ (∀ i < cyls.length,
      (cyls.map (fun c => (cylClosestLocal c.1 c.2 r h).1)).getD
          (firstArgmin (cyls.map (fun c => (cylClosestLocal c.1 c.2 r h).1))) 0
        ≤ (cyls.map (fun c => (cylClosestLocal c.1 c.2 r h).1)).getD i 0)
  ∧ (∀ j < firstArgmin (cyls.map (fun c => (cylClosestLocal c.1 c.2 r h).1)),
      (cyls.map (fun c => (cylClosestLocal c.1 c.2 r h).1)).getD
          (firstArgmin (cyls.map (fun c => (cylClosestLocal c.1 c.2 r h).1))) 0
        < (cyls.map (fun c => (cylClosestLocal c.1 c.2 r h).1)).getD j 0) := by
  have ha : ((((fun i => r i + (cylClosestLocal radius depth r h).2.1.1 i) : Fin m → ℝ),
        h + (cylClosestLocal radius depth r h).2.1.2)
      = if pairDist (capPoint radius depth r h) (r, h)
            ≤ pairDist (lateralPoint radius depth r h) (r, h)
        then capPoint radius depth r h else lateralPoint radius depth r h) :=
    addBack r h _
  have hkeysne : cyls.map (fun c => (cylClosestLocal c.1 c.2 r h).1) ≠ [] := by
    simpa using hne
  have hidx : firstArgmin (cyls.map (fun c => (cylClosestLocal c.1 c.2 r h).1)) < cyls.length := by
    have := firstArgmin_lt_length _ hkeysne
    simpa using this
  refine ⟨ha, ?_, ?_, ?_, ?_⟩
  · rw [ha]
    by_cases hc : pairDist (capPoint radius depth r h) (r, h)
        ≤ pairDist (lateralPoint radius depth r h) (r, h)
    · rw [if_pos hc, min_eq_left hc]
    · rw [if_neg hc, min_eq_right (le_of_lt (lt_of_not_le hc))]
  · have hkeys : (cyls.map (fun c => cylClosestLocal c.1 c.2 r h)).map (fun o : CylOut m => o.1)
        = cyls.map (fun c => (cylClosestLocal c.1 c.2 r h).1) := by
      rw [List.map_map]
      rfl
    simp only [cylClosestMulti]
    rw [hkeys]
    exact getD_map_lt (fun c : ℝ × ℝ => cylClosestLocal c.1 c.2 r h) cyls _ hidx (0, 0)
      (cylOutDefault m)
  · intro i hi
    exact firstArgmin_le _ i (by simpa using hi)
  · intro j hj
    exact firstArgmin_first _ j hj

/-- Witness for C7 at a concrete lateral query beside a single unit cylinder. -/
theorem claim_C7_closest_surface_selection_witness :
    ((((fun i => (fun _ : Fin 1 => (2:ℝ)) i + (cylClosestLocal 1 2 (fun _ : Fin 1 => (2:ℝ)) 0).2.1.1 i) : Fin 1 → ℝ),
        0 + (cylClosestLocal 1 2 (fun _ : Fin 1 => (2:ℝ)) 0).2.1.2)
      = if pairDist (capPoint 1 2 (fun _ : Fin 1 => (2:ℝ)) 0) ((fun _ : Fin 1 => (2:ℝ)), 0)
            ≤ pairDist (lateralPoint 1 2 (fun _ : Fin 1 => (2:ℝ)) 0) ((fun _ : Fin 1 => (2:ℝ)), 0)
        then capPoint 1 2 (fun _ : Fin 1 => (2:ℝ)) 0 else lateralPoint 1 2 (fun _ : Fin 1 => (2:ℝ)) 0)
  ∧ pairDist (((fun i => (fun _ : Fin 1 => (2:ℝ)) i + (cylClosestLocal 1 2 (fun _ : Fin 1 => (2:ℝ)) 0).2.1.1 i) : Fin 1 → ℝ),
        0 + (cylClosestLocal 1 2 (fun _ : Fin 1 => (2:ℝ)) 0).2.1.2) ((fun _ : Fin 1 => (2:ℝ)), 0)
      = min (pairDist (capPoint 1 2 (fun _ : Fin 1 => (2:ℝ)) 0) ((fun _ : Fin 1 => (2:ℝ)), 0))
            (pairDist (lateralPoint 1 2 (fun _ : Fin 1 => (2:ℝ)) 0) ((fun _ : Fin 1 => (2:ℝ)), 0))
  ∧ cylClosestMulti [((1:ℝ), (2:ℝ))] (fun _ : Fin 1 => (2:ℝ)) 0
      = cylClosestLocal
          ([((1:ℝ), (2:ℝ))].getD (firstArgmin ([((1:ℝ), (2:ℝ))].map (fun c => (cylClosestLocal c.1 c.2 (fun _ : Fin 1 => (2:ℝ)) 0).1))) (0, 0)).1
          ([((1:ℝ), (2:ℝ))].getD (firstArgmin ([((1:ℝ), (2:ℝ))].map (fun c => (cylClosestLocal c.1 c.2 (fun _ : Fin 1 => (2:ℝ)) 0).1))) (0, 0)).2
          (fun _ : Fin 1 => (2:ℝ)) 0
  ∧ (∀ i < [((1:ℝ), (2:ℝ))].length,
      ([((1:ℝ), (2:ℝ))].map (fun c => (cylClosestLocal c.1 c.2 (fun _ : Fin 1 => (2:ℝ)) 0).1)).getD
          (firstArgmin ([((1:ℝ), (2:ℝ))].map (fun c => (cylClosestLocal c.1 c.2 (fun _ : Fin 1 => (2:ℝ)) 0).1))) 0
        ≤ ([((1:ℝ), (2:ℝ))].map (fun c => (cylClosestLocal c.1 c.2 (fun _ : Fin 1 => (2:ℝ)) 0).1)).getD i 0)
  ∧ (∀ j < firstArgmin ([((1:ℝ), (2:ℝ))].map (fun c => (cylClosestLocal c.1 c.2 (fun _ : Fin 1 => (2:ℝ)) 0).1)),
      ([((1:ℝ), (2:ℝ))].map (fun c => (cylClosestLocal c.1 c.2 (fun _ : Fin 1 => (2:ℝ)) 0).1)).getD
          (firstArgmin ([((1:ℝ), (2:ℝ))].map (fun c => (cylClosestLocal c.1 c.2 (fun _ : Fin 1 => (2:ℝ)) 0).1))) 0
        < ([((1:ℝ), (2:ℝ))].map (fun c => (cylClosestLocal c.1 c.2 (fun _ : Fin 1 => (2:ℝ)) 0).1)).getD j 0) :=
  claim_C7_closest_surface_selection 1 2 (fun _ : Fin 1 => (2:ℝ)) 0 [((1:ℝ), (2:ℝ))] (by simp)
